import Mathlib

/-!
searchlight/ruler: membership peer and hash-ring distributor

A shallow embedding of `pkg/cluster/cluster.go` (Peer: Settle, Leave, Ready, Status,
refresh, resolvePeers, retry) and `pkg/ruler/distributor.go` (Distributor), followed by
the properties established about them.

Conventions
* A Go channel that is only ever closed (`stopc`, `readyc`) is a `Bool`: `true` = closed.
* A Go run-time panic is `Except.error` of a `Panic`.
* A blocking loop is run against a finite script of what the environment shows it at each
  iteration; `none` means the loop is still blocked when the script ends.
* External collaborators (gossip session, DNS resolver, `net.SplitHostPort`,
  `net.JoinHostPort`, the hash placement of the ring) are parameters.
-/

namespace Cluster

/-- Go run-time panics that the embedded code can raise. -/
inductive Panic where
  | closeOfClosedChannel
  deriving DecidableEq, Repr

/-- A `memberlist.Node` as far as this code reads it: `Name` and the string `Address()`. -/
structure Node where
  name : String
  address : String
  deriving DecidableEq, Repr

/-- The gossip session (`*memberlist.Memberlist`) as far as this code reads it. -/
structure Memberlist where
  localNode : Node
  members : List Node
  deriving DecidableEq, Repr

/-- Modelled from the spec: the `Config` struct, declared outside the files under
`src/`; of its fields (the intervals, addresses and seeds of the spec's PeerConfig) this
code reads `GossipInterval` after creation, a `time.Duration`: int64 nanoseconds. -/
structure Config where
  GossipInterval : Int
  deriving DecidableEq, Repr

/-- Source `DefaultGossipInterval = 200 * time.Millisecond`, in nanoseconds. -/
def DefaultGossipInterval : Int := 200 * 1000000

/-- The value an int64 computation leaves: the result wrapped into the int64 range. -/
def wrapInt64 (x : Int) : Int := (x + 2 ^ 63) % 2 ^ 64 - 2 ^ 63

/-- The `Peer` struct: `cfg`, `mlist`, the two one-shot channels and the two counters. -/
structure Peer where
  cfg : Config
  mlist : Memberlist
  stopc : Bool
  readyc : Bool
  failedRefreshCounter : Nat
  refreshCounter : Nat
  deriving DecidableEq, Repr

/-- Go's `close(ch)` on a channel that is only ever closed: panics when already closed. -/
def closeChan (closed : Bool) : Except Panic Bool :=
  if closed then .error .closeOfClosedChannel else .ok true

/-- Source `func (p *Peer) Name() string` -/
def Peer.Name (p : Peer) : String := p.mlist.localNode.name

/-- Source `func (p *Peer) Peers() []*memberlist.Node` -/
def Peer.Peers (p : Peer) : List Node := p.mlist.members

/-- Source `func (p *Peer) Ready() bool`: non-blocking receive on `readyc`. -/
def Peer.Ready (p : Peer) : Bool := if p.readyc then true else false

/-- Source `func (p *Peer) Status() string` -/
def Peer.Status (p : Peer) : String := if p.Ready then "ready" else "settling"

/-- Source `func (p *Peer) WaitReady()`: `<-p.readyc`; `none` = blocked (channel not closed). -/
def Peer.WaitReady (p : Peer) : Option Unit := if p.readyc then some () else none

/-- Source `func (p *Peer) Leave(timeout)`: `close(p.stopc)` and then `p.mlist.Leave(timeout)`,
whose effect and error are those of the gossip session (`mlLeave`). -/
def Peer.Leave {ε : Type} (mlLeave : Memberlist → Nat → Memberlist × Option ε)
    (p : Peer) (timeout : Nat) : Except Panic (Peer × Option ε) :=
  match closeChan p.stopc with
  | .error e => .error e
  | .ok c =>
    let r := mlLeave p.mlist timeout
    .ok ({ p with stopc := c, mlist := r.1 }, r.2)

/-! ## Settle -/

/-- Source `const NumOkayRequired = 3` -/
def NumOkayRequired : Nat := 3

/-- The local variables of `Settle`'s loop. -/
structure SettleVars where
  nPeers : Nat
  nOkay : Nat
  totalPolls : Nat
  deriving DecidableEq, Repr

/-- What one loop iteration of `Settle` is shown.
* `stop`: `stopc` is closed when the `select` is entered, or gets closed before the
  timer fires.
* `n`: the value `len(p.Peers())` has once the timer case has been taken.
* `timerPicked`: when both cases of the `select` are ready at once, Go picks one of
  them at random; `true` = the timer case is the one picked. -/
structure Obs where
  stop : Bool
  n : Nat
  timerPicked : Bool
  deriving DecidableEq, Repr

/-- The duration `p.cfg.GossipInterval * 10` handed to `time.After`, an int64 product. -/
def settleInterval (cfg : Config) : Int := wrapInt64 (cfg.GossipInterval * 10)

/-- Which case the `select` of `Settle` takes. `<-p.stopc` is ready when `stopc` is
closed. `<-time.After(d)` is ready only after `d` when `d` is positive, so a closed
`stopc` is then the only ready case; when `d` is not positive the timer is ready at once
and, `stopc` being closed too, Go picks between the two. -/
def stopTaken (stopc : Bool) (interval : Int) (o : Obs) : Bool :=
  (stopc || o.stop) && (decide (0 < interval) || !o.timerPicked)

/-- How `Settle` left its loop. `settled = true`: the `break` ("gossip settled;
proceeding"); `false`: the `stopc` case ("gossip not settled but continuing anyway").
`polls` is the number of times `len(p.Peers())` was evaluated. -/
structure SettleExit where
  settled : Bool
  polls : Nat
  vars : SettleVars
  deriving DecidableEq, Repr

/-- The part of the loop body after the `nOkay >= NumOkayRequired` test. -/
def settleUpdate (v : SettleVars) (n : Nat) : SettleVars :=
  { nPeers := n
    nOkay := if n = v.nPeers then v.nOkay + 1 else 0
    totalPolls := v.totalPolls + 1 }

/-- The `for { select ... }` loop of `Settle`. -/
def settleLoop (stopc : Bool) (interval : Int) (v : SettleVars) :
    List Obs → Option SettleExit
  | [] => none
  | o :: rest =>
    if stopTaken stopc interval o then
      some { settled := false, polls := v.totalPolls, vars := v }
    else if v.nOkay ≥ NumOkayRequired then
      some { settled := true, polls := v.totalPolls + 1, vars := v }
    else
      settleLoop stopc interval (settleUpdate v o.n) rest

/-- Source `func (p *Peer) Settle()`: both exits of the loop end in `close(p.readyc)`. -/
def Peer.Settle (p : Peer) (script : List Obs) : Option (Except Panic (Peer × SettleExit)) :=
  match settleLoop p.stopc (settleInterval p.cfg)
      { nPeers := 0, nOkay := 0, totalPolls := 0 } script with
  | none => none
  | some e =>
    match closeChan p.readyc with
    | .error x => some (.error x)
    | .ok c => some (.ok ({ p with readyc := c, stopc := p.stopc || !e.settled }, e))

/-- A script with no shutdown: the given member counts, one per poll. -/
def quiet (cs : List Nat) : List Obs :=
  cs.map fun n => { stop := false, n := n, timerPicked := false }

/-- The member count of poll `i` (polls are numbered from 1), the count before the
first poll being `p`. -/
def countAt (p : Nat) (cs : List Nat) : Nat → Nat
  | 0 => p
  | i + 1 => cs.getD i 0

/-- The three polls before poll `m` were each unchanged from the poll before them
(the count before the first poll being 0), and poll `m` is among the polls of `cs`. -/
def stableBefore (cs : List Nat) (m : Nat) : Prop :=
  4 ≤ m ∧ m ≤ cs.length ∧
    countAt 0 cs (m - 1) = countAt 0 cs (m - 2) ∧
    countAt 0 cs (m - 2) = countAt 0 cs (m - 3) ∧
    countAt 0 cs (m - 3) = countAt 0 cs (m - 4)

/-- A gossip session of three nodes, seen from `node-a`. -/
def mlistA : Memberlist :=
  { localNode := { name := "node-a", address := "10.0.0.1:7946" }
    members :=
      [ { name := "node-a", address := "10.0.0.1:7946" },
        { name := "node-b", address := "10.0.0.2:7946" },
        { name := "node-c", address := "10.0.0.3:7946" } ] }

/-- The Peer `Create` returns on that session: both channels open, counters at zero. -/
def peerA : Peer :=
  { cfg := { GossipInterval := DefaultGossipInterval }, mlist := mlistA,
    stopc := false, readyc := false,
    failedRefreshCounter := 0, refreshCounter := 0 }

/-! ## Go standard library: `net.SplitHostPort`, `net.JoinHostPort`

These two functions are not part of the repository. `resolvePeers` takes them as
parameters; the versions below follow the Go standard library and serve as the concrete
instances at which the results are evaluated. -/

/-- The reasons `net.SplitHostPort` reports in its `AddrError`. -/
inductive AddrError where
  | missingPort
  | tooManyColons
  | missingCloseBracket
  | unexpectedOpenBracket
  | unexpectedCloseBracket
  deriving DecidableEq, Repr

/-- Go `net.SplitHostPort`, on the characters of `hostport`. -/
def SplitHostPort (hostport : String) : Except AddrError (String × String) :=
  let s := hostport.data
  if ':' ∉ s then .error .missingPort else
  let i := s.length - 1 - s.reverse.indexOf ':'
  let finish (host : List Char) (j k : Nat) : Except AddrError (String × String) :=
    if '[' ∈ s.drop j then .error .unexpectedOpenBracket
    else if ']' ∈ s.drop k then .error .unexpectedCloseBracket
    else .ok (String.mk host, String.mk (s.drop (i + 1)))
  if s.head? = some '[' then
    if ']' ∉ s then .error .missingCloseBracket else
    let e := s.indexOf ']'
    if e + 1 = s.length then .error .missingPort
    else if e + 1 = i then finish ((s.drop 1).take (e - 1)) 1 (e + 1)
    else if s.getD (e + 1) ' ' = ':' then .error .tooManyColons
    else .error .missingPort
  else
    let host := s.take i
    if ':' ∈ host then .error .tooManyColons else finish host 0 0

/-- Go `net.JoinHostPort`: a host that holds a colon is put in brackets. -/
def JoinHostPort (host port : String) : String :=
  if ':' ∈ host.data then "[" ++ host ++ "]:" ++ port else host ++ ":" ++ port

/-! ## resolvePeers and retry -/

/-- The errors `resolvePeers` can return; `cause` is the wrapped error. -/
inductive ResolveError (ε α : Type) where
  /-- Source `errors.Wrapf(err, "split host/port for peer %s", peer)` -/
  | splitHostPort (peer : String) (cause : α)
  /-- Source `errors.Wrapf(err, "IP Addr lookup for peer %s", peer)` -/
  | ipAddrLookup (peer : String) (cause : ε)
  /-- Source `errors.New("empty IPAddr result. Retrying")` -/
  | emptyResult
  deriving DecidableEq, Repr

/-- What the surroundings of `resolvePeers` do, indexed by the number of lookups made
before (over all seeds of the call).
* `lookup k host`: the result of `res.LookupIPAddr` when it is lookup number `k`
  (from 0), each address already as `ip.String()`.
* `ctxDone k`: at the `select` of `retry` that follows lookup `k`, the caller's `ctx`
  is done and the `<-stopc` case is taken.
* `tickFirst k`: at that `select`, after `cancel()` has run, the ticker has a value
  too and the `<-tick.C` case is the one taken. -/
structure Env (ε : Type) where
  lookup : Nat → String → Except ε (List String)
  ctxDone : Nat → Bool
  tickFirst : Nat → Bool

/-- The variables the closure passed to `retry` shares with `resolvePeers`. -/
structure RetryVars where
  calls : Nat
  lookupErrSpotted : Bool
  cancelled : Bool
  ips : List String
  deriving DecidableEq, Repr

/-- Source `func retry(interval, stopc, f)`: run `f` until it returns no error, or until the
`select` after a failed run takes `<-stopc`. `fuel` bounds the number of runs of `f`;
`none` = still retrying. -/
def retry {σ E : Type} (stopTaken : σ → Bool) (f : σ → σ × Option E) :
    Nat → σ → Option (σ × Option E)
  | 0, _ => none
  | fuel + 1, s =>
    match f s with
    | (s', none) => some (s', none)
    | (s', some err) =>
      if stopTaken s' then some (s', some err) else retry stopTaken f fuel s'

/-- The closure `func() error { ... }` that `resolvePeers` hands to `retry`. -/
def retryLookup {ε α : Type} (env : Env ε) (peer host : String) (s : RetryVars) :
    RetryVars × Option (ResolveError ε α) :=
  let cancelled := s.cancelled || s.lookupErrSpotted
  match env.lookup s.calls host with
  | .error e =>
    ({ calls := s.calls + 1, lookupErrSpotted := true, cancelled := cancelled, ips := [] },
      some (.ipAddrLookup peer e))
  | .ok ips =>
    let s' : RetryVars :=
      { calls := s.calls + 1, lookupErrSpotted := s.lookupErrSpotted,
        cancelled := cancelled, ips := ips }
    if ips.length = 0 then (s', some .emptyResult) else (s', none)

/-- Which case the `select` in `retry` takes after a failed run: `<-stopc`
(`retryCtx.Done()`) when the caller's context is done, or when `cancel()` has run and
the ticker case is not the one picked. -/
def retryStop {ε : Type} (env : Env ε) (s : RetryVars) : Bool :=
  env.ctxDone (s.calls - 1) || (s.cancelled && !env.tickFirst (s.calls - 1))

/-- What a call of `resolvePeers` returned and how many lookups it made. -/
structure Resolved (ε α : Type) where
  result : Except (ResolveError ε α) (List String)
  lookups : Nat

/-- The `for _, peer := range peers` loop of `resolvePeers`; `calls` lookups have been
made and `acc` is `resolvedPeers` so far. `none` = still inside `retry` after `fuel`
runs. -/
def resolveLoop {ε α : Type} (split : String → Except α (String × String))
    (join : String → String → String) (env : Env ε) (fuel : Nat) :
    List String → Nat → List String → Option (Resolved ε α)
  | [], calls, acc => some { result := .ok acc, lookups := calls }
  | peer :: rest, calls, acc =>
    match split peer with
    | .error e => some { result := .error (.splitHostPort peer e), lookups := calls }
    | .ok (host, port) =>
      match env.lookup calls host with
      | .error _ => resolveLoop split join env fuel rest (calls + 1) (acc ++ [peer])
      | .ok ips =>
        if ips.length = 0 then
          match retry (retryStop env) (retryLookup env peer host) fuel
              { calls := calls + 1, lookupErrSpotted := false, cancelled := false,
                ips := ips } with
          | none => none
          | some (s, some err) => some { result := .error err, lookups := s.calls }
          | some (s, none) =>
            resolveLoop split join env fuel rest s.calls
              (acc ++ s.ips.map fun ip => join ip port)
        else
          resolveLoop split join env fuel rest (calls + 1)
            (acc ++ ips.map fun ip => join ip port)

/-- Source `func resolvePeers(ctx, peers, res) ([]string, error)` -/
def resolvePeers {ε α : Type} (split : String → Except α (String × String))
    (join : String → String → String) (env : Env ε) (fuel : Nat) (peers : List String) :
    Option (Resolved ε α) :=
  resolveLoop split join env fuel peers 0 []

/-- The block of output one seed contributes when its first lookup, lookup number `k`,
settles it: the seed itself when the lookup errs, else one joined entry per address. -/
def seedBlock {ε α : Type} (split : String → Except α (String × String))
    (join : String → String → String) (env : Env ε) (k : Nat) (seed : String) :
    List String :=
  match split seed with
  | .error _ => []
  | .ok (host, port) =>
    match env.lookup k host with
    | .error _ => [seed]
    | .ok ips => ips.map fun ip => join ip port

/-- The blocks of the seeds in seed order, the first seed's lookup being number `k`. -/
def seedBlocks {ε α : Type} (split : String → Except α (String × String))
    (join : String → String → String) (env : Env ε) : Nat → List String → List String
  | _, [] => []
  | k, seed :: rest => seedBlock split join env k seed ++ seedBlocks split join env (k + 1) rest

/-- A seed is settled by its first lookup, lookup number `k`: it splits, and the lookup
errs or returns at least one address. -/
def firstLookupSettles {ε α : Type} (split : String → Except α (String × String))
    (env : Env ε) (k : Nat) (seed : String) : Prop :=
  ∃ host port, split seed = .ok (host, port) ∧
    ((∃ e, env.lookup k host = .error e) ∨
      ∃ ips, env.lookup k host = .ok ips ∧ ips ≠ [])

/-- A resolver for which the name `ruler` has no address on lookups before number `n`
and three addresses from then on, every other host failing to resolve; the context of
the caller is never done. -/
def dnsAfter (n : Nat) : Env String :=
  { lookup := fun k host =>
      if host = "ruler" then
        if k < n then .ok [] else .ok ["10.0.0.2", "10.0.0.4", "10.0.0.5"]
      else .error "no such host"
    ctxDone := fun _ => false
    tickFirst := fun _ => false }

/-! ## refresh -/

/-- One `mlist.Join([]string{peer})` made by `refresh` and whether it returned no error. -/
structure JoinAttempt where
  addr : String
  ok : Bool
  deriving DecidableEq, Repr

/-- The `for _, peer := range resolvedPeers` loop of `refresh`. `members` is the
snapshot `p.mlist.Members()` taken before the loop; `mlJoin` is the gossip session's
single-address join (new session state, and whether `err == nil`). The attempts made
are recorded in order. -/
def refreshLoop (mlJoin : Memberlist → String → Memberlist × Bool) (members : List Node) :
    List String → Peer → List JoinAttempt → Peer × List JoinAttempt
  | [], p, att => (p, att)
  | peer :: rest, p, att =>
    if members.any (fun member => member.address == peer) then
      refreshLoop mlJoin members rest p att
    else
      let r := mlJoin p.mlist peer
      if r.2 then
        refreshLoop mlJoin members rest
          { p with mlist := r.1, refreshCounter := p.refreshCounter + 1 }
          (att ++ [{ addr := peer, ok := true }])
      else
        refreshLoop mlJoin members rest
          { p with mlist := r.1, failedRefreshCounter := p.failedRefreshCounter + 1 }
          (att ++ [{ addr := peer, ok := false }])

/-- The resolved addresses that no member of the view has as its address, in resolved
order. -/
def absentFrom (members : List Node) (resolved : List String) : List String :=
  resolved.filter fun peer => !members.any (fun member => member.address == peer)

/-- A single-address join for each address of the list, in order, each made on the
session the one before left behind, whether that one succeeded or not: the session
they leave and, per address, whether the gossip session reported no error. -/
def joinEach (mlJoin : Memberlist → String → Memberlist × Bool) :
    Memberlist → List String → Memberlist × List JoinAttempt
  | ml, [] => (ml, [])
  | ml, addr :: rest =>
    ((joinEach mlJoin (mlJoin ml addr).1 rest).1,
      { addr := addr, ok := (mlJoin ml addr).2 } :: (joinEach mlJoin (mlJoin ml addr).1 rest).2)

/-- A gossip session that cannot reach `10.0.0.4:7946` and takes every other address it
is asked to join into its member list. -/
def joinUnlessFour (ml : Memberlist) (addr : String) : Memberlist × Bool :=
  if addr = "10.0.0.4:7946" then (ml, false)
  else ({ ml with members := ml.members ++ [{ name := addr, address := addr }] }, true)

/-- Source `func (p *Peer) refresh()`. `knownPeers` is what `getPeers(p.cfg)` returned (its
error is only logged). `resolvePeers` runs under `context.Background()`, which is never
done. `none` = still inside `retry` of `resolvePeers`. -/
def Peer.refresh {ε α : Type} (split : String → Except α (String × String))
    (join : String → String → String) (env : Env ε) (fuel : Nat)
    (mlJoin : Memberlist → String → Memberlist × Bool)
    (knownPeers : List String) (p : Peer) : Option (Peer × List JoinAttempt) :=
  match resolvePeers split join { env with ctxDone := fun _ => false } fuel knownPeers with
  | none => none
  | some r =>
    match r.result with
    | .error _ => some (p, [])
    | .ok resolvedPeers => some (refreshLoop mlJoin p.mlist.members resolvedPeers p [])

end Cluster

namespace Ruler

open Cluster

/-- The errors the Distributor returns: `errors.New("peer is nil")` and the ring's
`consistent.ErrEmptyCircle`. -/
inductive Error where
  | peerIsNil
  | emptyCircle
  deriving DecidableEq, Repr

/-- Modelled from the spec: the consistent-hash ring `consistent.Consistent` of the
library `stathat.com/c/consistent`, which is not part of the repository: a capability
`Set(members)`, `Get(key) -> member, error`, `Members()`. The ring is the set of its
member names; where a key lands on the ring of a given member set is the library's
hashing, the parameter `locate` of `Get`. -/
structure Consistent where
  members : List String
  deriving DecidableEq, Repr

/-- Modelled from the spec: `consistent.New()`, the ring with no member. -/
def Consistent.New : Consistent := { members := [] }

/-- Modelled from the spec: `Set(elts)` leaves the ring with exactly the names of `elts`
as members. -/
def Consistent.Set (_c : Consistent) (elts : List String) : Consistent :=
  { members := elts.dedup }

/-- Modelled from the spec: `Members()`. -/
def Consistent.Members (c : Consistent) : List String := c.members

/-- Modelled from the spec: `Get(key)` fails with `ErrEmptyCircle` on a ring with no
member and otherwise returns the member nearest to the hash of the key. -/
def Consistent.Get (locate : List String → String → String) (c : Consistent)
    (key : String) : Except Error String :=
  if c.members = [] then .error .emptyCircle else .ok (locate c.members key)

/-- A stand-in for the hashing of the library, at which results are evaluated: the key
lands on the member at position (length of the key) modulo (number of members). -/
def locateByLength (members : List String) (key : String) : String :=
  members.getD (key.length % members.length) ""

/-- The `Distributor` struct; `peer = none` is the nil pointer. `memberSize` is the
package-level gauge `distributorMemberSize`. -/
structure Distributor where
  hashRing : Consistent
  peer : Option Peer
  memberSize : Nat
  deriving DecidableEq, Repr

/-- Source `func NewDistributor(p *cluster.Peer) (*Distributor, error)`; the error is always nil. -/
def NewDistributor (p : Option Peer) : Distributor :=
  { hashRing := Consistent.New, peer := p, memberSize := 0 }

/-- Source `func (d *Distributor) IsAssigned(key string) (bool, error)` -/
def Distributor.IsAssigned (locate : List String → String → String) (d : Distributor)
    (key : String) : Except Error Bool :=
  match d.peer with
  | none => .error .peerIsNil
  | some peer =>
    match d.hashRing.Get locate key with
    | .error err => .error err
    | .ok nodeName => if nodeName = peer.Name then .ok true else .ok false

/-- Source `func (d *Distributor) AssignedNode(key string) (string, error)` -/
def Distributor.AssignedNode (locate : List String → String → String) (d : Distributor)
    (key : String) : Except Error String :=
  d.hashRing.Get locate key

/-- Source `func (d *Distributor) Refresh()`; `none` = blocked in `d.peer.WaitReady()`. -/
def Distributor.Refresh (d : Distributor) : Option Distributor :=
  match d.peer with
  | none => some d
  | some peer =>
    match peer.WaitReady with
    | none => none
    | some () =>
      let nodeList := peer.Peers.map fun nd => nd.name
      let ring := d.hashRing.Set nodeList
      some { d with hashRing := ring, memberSize := ring.Members.length }

/-- Source `func (d *Distributor) MemberNodeList() []string` -/
def Distributor.MemberNodeList (d : Distributor) : List String := d.hashRing.Members

/-- The Distributors a program can hold: made by `NewDistributor`, then any number of
`Refresh` calls, the attached Peer changing its own state in between (it is shared by
pointer). A Distributor never gains or loses its Peer. -/
inductive Reachable : Distributor → Prop where
  | new (p : Option Peer) : Reachable (NewDistributor p)
  | refresh (d d' : Distributor) : Reachable d → d.Refresh = some d' → Reachable d'
  | peerMoves (d : Distributor) (p p' : Peer) :
      Reachable d → d.peer = some p → Reachable { d with peer := some p' }

end Ruler

/-! # Properties -/

namespace Cluster

/-! ## Settle -/

theorem countAt_cons_succ (p c : Nat) (cs : List Nat) (i : Nat) :
    countAt p (c :: cs) (i + 1) = countAt c cs i := by
  cases i <;> simp [countAt]

/-- Without shutdown the loop can only leave through the `break`, and when it does so
after `j` further polls, the polls among the last three before it were unchanged. -/
theorem settleLoop_quiet_exit (iv : Int) (cs : List Nat) :
    ∀ (v : SettleVars) (e : SettleExit),
    settleLoop false iv v (quiet cs) = some e →
    e.settled = true ∧ e.vars.nOkay ≥ NumOkayRequired ∧
    ∃ j, 1 ≤ j ∧ j ≤ cs.length ∧ e.polls = v.totalPolls + j ∧ 4 ≤ j + v.nOkay ∧
      ∀ i, 1 ≤ i → i < j → j ≤ i + 3 →
        countAt v.nPeers cs i = countAt v.nPeers cs (i - 1) := by
  induction cs with
  | nil => intro v e h; simp [quiet, settleLoop] at h
  | cons c cs ih =>
    intro v e h
    simp only [quiet, List.map_cons, settleLoop, stopTaken, Bool.or_self, Bool.false_and,
      Bool.false_eq_true, if_false] at h
    by_cases hk : v.nOkay ≥ NumOkayRequired
    · rw [if_pos hk] at h
      cases h
      refine ⟨rfl, hk, 1, le_refl _, by simp, rfl, ?_, ?_⟩
      · simp only [NumOkayRequired] at hk; omega
      · intro i h1 h2; omega
    · rw [if_neg hk] at h
      obtain ⟨hs, hn, j, hj1, hj2, hp, ho, hw⟩ := ih (settleUpdate v c) e h
      simp only [settleUpdate] at hp ho hw
      simp only [NumOkayRequired] at hk
      refine ⟨hs, hn, j + 1, by omega, by simp; omega, by omega, ?_, ?_⟩
      · by_cases hc : c = v.nPeers
        · rw [if_pos hc] at ho; omega
        · rw [if_neg hc] at ho; omega
      · intro i h1 h2 h3
        obtain ⟨i, rfl⟩ : ∃ k, i = k + 1 := ⟨i - 1, by omega⟩
        rw [countAt_cons_succ]
        cases i with
        | zero =>
          simp only [countAt]
          by_cases hc : c = v.nPeers
          · simp [hc]
          · rw [if_neg hc] at ho; omega
        | succ i =>
          simp only [Nat.add_sub_cancel]
          rw [countAt_cons_succ]
          have := hw (i + 1) (by omega) (by omega) (by omega)
          simpa using this

/-- Without shutdown, once the polls among the last three before poll `j` are unchanged
and the counter can have reached 3 by then, the loop has left by poll `j`. -/
theorem settleLoop_quiet_progress (iv : Int) (cs : List Nat) :
    ∀ (v : SettleVars) (j : Nat),
    1 ≤ j → j ≤ cs.length → 4 ≤ j + v.nOkay →
    (∀ i, 1 ≤ i → i < j → j ≤ i + 3 →
        countAt v.nPeers cs i = countAt v.nPeers cs (i - 1)) →
    ∃ e, settleLoop false iv v (quiet cs) = some e ∧ e.polls ≤ v.totalPolls + j := by
  induction cs with
  | nil => intro v j h1 h2; simp at h2; omega
  | cons c cs ih =>
    intro v j h1 h2 h3 hw
    simp only [quiet, List.map_cons, settleLoop, stopTaken, Bool.or_self, Bool.false_and,
      Bool.false_eq_true, if_false]
    by_cases hk : v.nOkay ≥ NumOkayRequired
    · rw [if_pos hk]
      exact ⟨_, rfl, by simp; omega⟩
    · rw [if_neg hk]
      simp only [NumOkayRequired] at hk
      simp only [List.length_cons] at h2
      have hstep : 4 ≤ (j - 1) + (settleUpdate v c).nOkay := by
        simp only [settleUpdate]
        by_cases hc : c = v.nPeers
        · rw [if_pos hc]; omega
        · rw [if_neg hc]
          by_contra hlt
          have := hw 1 (le_refl _) (by omega) (by omega)
          simp [countAt] at this
          exact hc this
      obtain ⟨e, he, hp⟩ := ih (settleUpdate v c) (j - 1) (by omega) (by omega) hstep (by
        intro i hi1 hi2 hi3
        have := hw (i + 1) (by omega) (by omega) (by omega)
        rw [countAt_cons_succ] at this
        obtain ⟨k, rfl⟩ : ∃ k, i = k + 1 := ⟨i - 1, by omega⟩
        simp only [Nat.add_sub_cancel] at this ⊢
        rw [countAt_cons_succ] at this
        simpa [settleUpdate] using this)
      refine ⟨e, he, ?_⟩
      simp only [settleUpdate] at hp
      omega

/-- From the start of `Settle`, a `break` at poll `m` has the three polls before it
unchanged. -/
theorem settleLoop_start_exit (iv : Int) (cs : List Nat) (e : SettleExit)
    (h : settleLoop false iv { nPeers := 0, nOkay := 0, totalPolls := 0 } (quiet cs) = some e) :
    e.settled = true ∧ e.vars.nOkay ≥ NumOkayRequired ∧ stableBefore cs e.polls := by
  obtain ⟨hs, hn, j, hj1, hj2, hp, ho, hw⟩ := settleLoop_quiet_exit iv cs _ e h
  simp only [Nat.zero_add, Nat.add_zero] at hp ho hw
  subst hp
  refine ⟨hs, hn, ho, hj2, ?_, ?_, ?_⟩
  · have := hw (e.polls - 1) (by omega) (by omega) (by omega)
    rw [this]; congr 1
  · have := hw (e.polls - 2) (by omega) (by omega) (by omega)
    rw [this]; congr 1
  · have := hw (e.polls - 3) (by omega) (by omega) (by omega)
    rw [this]; congr 1

/-- From the start of `Settle`, three unchanged polls before poll `m` make the loop
leave by poll `m`. -/
theorem settleLoop_start_progress (iv : Int) (cs : List Nat) (m : Nat)
    (h : stableBefore cs m) :
    ∃ e, settleLoop false iv { nPeers := 0, nOkay := 0, totalPolls := 0 } (quiet cs) = some e ∧
      e.polls ≤ m := by
  obtain ⟨h4, hl, h1, h2, h3⟩ := h
  obtain ⟨e, he, hp⟩ := settleLoop_quiet_progress iv cs
    { nPeers := 0, nOkay := 0, totalPolls := 0 } m (by omega) hl (by simp; omega) (by
      intro i hi1 hi2 hi3
      simp only
      have hcases : i = m - 1 ∨ i = m - 2 ∨ i = m - 3 := by omega
      rcases hcases with rfl | rfl | rfl
      · rw [h1]; congr 1
      · rw [show m - 2 - 1 = m - 3 by omega]; exact h2
      · rw [show m - 3 - 1 = m - 4 by omega]; exact h3)
  exact ⟨e, he, by simpa using hp⟩

/-- Once an iteration takes the shutdown case the loop has left, having polled at most
once per earlier iteration. -/
theorem settleLoop_stop (s : Bool) (iv : Int) (o : Obs) (ho : stopTaken s iv o = true)
    (rest : List Obs) :
    ∀ (pre : List Obs) (v : SettleVars),
    ∃ e, settleLoop s iv v (pre ++ o :: rest) = some e ∧
      e.polls ≤ v.totalPolls + pre.length ∧
      (settleLoop s iv v pre = none →
        e.settled = false ∧ e.polls = v.totalPolls + pre.length) := by
  intro pre
  induction pre with
  | nil =>
    intro v
    exact ⟨{ settled := false, polls := v.totalPolls, vars := v },
      by simp [settleLoop, ho], by simp, by simp⟩
  | cons a pre ih =>
    intro v
    by_cases h1 : stopTaken s iv a = true
    · refine ⟨{ settled := false, polls := v.totalPolls, vars := v }, ?_, by simp, ?_⟩
      · simp [settleLoop, h1]
      · intro hn; simp [settleLoop, h1] at hn
    · by_cases h2 : v.nOkay ≥ NumOkayRequired
      · refine ⟨{ settled := true, polls := v.totalPolls + 1, vars := v }, ?_, by simp, ?_⟩
        · simp [settleLoop, h1, h2]
        · intro hn; simp [settleLoop, h1, h2] at hn
      · obtain ⟨e, he, hp, hq⟩ := ih (settleUpdate v a.n)
        simp only [settleUpdate] at hp hq
        refine ⟨e, ?_, by simp only [List.length_cons]; omega, ?_⟩
        · simpa [settleLoop, h1, h2] using he
        · intro hn
          have hn : settleLoop s iv (settleUpdate v a.n) pre = none := by
            simpa [settleLoop, h1, h2] using hn
          obtain ⟨h3, h4⟩ := hq hn
          exact ⟨h3, by simp only [List.length_cons]; omega⟩

/-- An iteration that finds `stopc` closed takes the shutdown case when the timer is
still to fire, or when the shutdown case is the one picked. -/
theorem stopTaken_of_stop (s : Bool) (iv : Int) (o : Obs) (ho : o.stop = true)
    (hsel : 0 < iv ∨ o.timerPicked = false) : stopTaken s iv o = true := by
  rcases hsel with h | h
  · simp [stopTaken, ho, h]
  · simp [stopTaken, ho, h]

end Cluster

namespace Cluster

/-- C1, as stated, fails: after the three polls `[1,1,1]` `Settle` has not returned, and
after the five polls `[1,2,2,2,2]` it has not returned either (so it did not settle at
the 4th); it returns at the 5th poll of `[1,1,1,1,7]` and at the 6th of
`[1,2,2,2,2,7]`. -/
theorem settle_examples_not_settled :
    peerA.Settle (quiet [1, 1, 1]) = none ∧
    peerA.Settle (quiet [1, 2, 2, 2, 2]) = none ∧
    (peerA.Settle (quiet [1, 1, 1, 1, 7])).map (fun r => r.map fun x => (x.2.settled, x.2.polls))
      = some (.ok (true, 5)) ∧
    (peerA.Settle (quiet [1, 2, 2, 2, 2, 7])).map (fun r => r.map fun x => (x.2.settled, x.2.polls))
      = some (.ok (true, 6)) := by
  refine ⟨rfl, rfl, rfl, rfl⟩

/-- C1 (amended): with no shutdown, `Settle` declares settled at poll `m` exactly when
`m` is the first poll whose three predecessors were each unchanged from the poll before
them (the count before the first poll being 0), that is at the poll after the one that
brought the counter to 3. On `[1,1,1]` and on `[1,2,2,2,2]` it has not yet returned; on
`[1,1,1,1,x]` it settles at poll 5 and on `[1,2,2,2,2,x]` at poll 6. -/
theorem settle_declares_after_three_unchanged (p : Peer) (hs : p.stopc = false)
    (hr : p.readyc = false) (cs : List Nat) (m : Nat) :
    ((∃ p' e, p.Settle (quiet cs) = some (.ok (p', e)) ∧ e.settled = true ∧ e.polls = m) ↔
      (stableBefore cs m ∧ ∀ k, k < m → ¬ stableBefore cs k)) ∧
    p.Settle (quiet [1, 1, 1]) = none ∧
    p.Settle (quiet [1, 2, 2, 2, 2]) = none ∧
    (∀ x, ∃ p' e, p.Settle (quiet [1, 1, 1, 1, x]) = some (.ok (p', e)) ∧
      e.settled = true ∧ e.polls = 5) ∧
    (∀ x, ∃ p' e, p.Settle (quiet [1, 2, 2, 2, 2, x]) = some (.ok (p', e)) ∧
      e.settled = true ∧ e.polls = 6) := by
  refine ⟨⟨?_, ?_⟩, ?_, ?_, ?_, ?_⟩
  · rintro ⟨p', e, h, _, hm⟩
    simp only [Peer.Settle, hs] at h
    cases hl : settleLoop false (settleInterval p.cfg)
      { nPeers := 0, nOkay := 0, totalPolls := 0 } (quiet cs) with
    | none => rw [hl] at h; cases h
    | some e' =>
      rw [hl] at h
      simp only [closeChan, hr, Bool.false_eq_true, if_false] at h
      have he : e' = e := by
        simp only [Option.some.injEq, Except.ok.injEq, Prod.mk.injEq] at h
        exact h.2
      subst he
      obtain ⟨_, _, hst⟩ := settleLoop_start_exit _ cs e' hl
      subst hm
      refine ⟨hst, ?_⟩
      intro k hk hsk
      obtain ⟨e2, he2, hp2⟩ := settleLoop_start_progress (settleInterval p.cfg) cs k hsk
      rw [hl] at he2
      cases he2
      omega
  · rintro ⟨hst, hmin⟩
    obtain ⟨e, he, hp⟩ := settleLoop_start_progress (settleInterval p.cfg) cs m hst
    obtain ⟨h1, _, h3⟩ := settleLoop_start_exit _ cs e he
    have hm : e.polls = m := by
      by_contra hne
      exact hmin e.polls (by omega) h3
    refine ⟨{ p with readyc := true, stopc := p.stopc || !e.settled }, e, ?_, h1, hm⟩
    simp only [Peer.Settle, hs, he, closeChan, hr, Bool.false_eq_true, if_false]
  · simp [Peer.Settle, hs, quiet, settleLoop, stopTaken, settleUpdate, NumOkayRequired]
  · simp [Peer.Settle, hs, quiet, settleLoop, stopTaken, settleUpdate, NumOkayRequired]
  · intro x
    exact ⟨_, _, by
      simp [Peer.Settle, hs, hr, quiet, settleLoop, stopTaken, settleUpdate, NumOkayRequired,
        closeChan]
      exact ⟨rfl, rfl⟩, rfl, rfl⟩
  · intro x
    exact ⟨_, _, by
      simp [Peer.Settle, hs, hr, quiet, settleLoop, stopTaken, settleUpdate, NumOkayRequired,
        closeChan]
      exact ⟨rfl, rfl⟩, rfl, rfl⟩

/-- Witness of C1 (amended) at the Peer `peerA` and the polls `[1,1,1,1,7]`, which
settle at poll 5. -/
theorem settle_declares_after_three_unchanged_witness :
    peerA.stopc = false ∧ peerA.readyc = false ∧
    ((∃ p' e, peerA.Settle (quiet [1, 1, 1, 1, 7]) = some (.ok (p', e)) ∧
        e.settled = true ∧ e.polls = 5) ↔
      (stableBefore [1, 1, 1, 1, 7] 5 ∧ ∀ k, k < 5 → ¬ stableBefore [1, 1, 1, 1, 7] k)) :=
  ⟨rfl, rfl, (settle_declares_after_three_unchanged peerA rfl rfl [1, 1, 1, 1, 7] 5).1⟩

/-- C9: in `Settle` with no shutdown, a poll whose count equals the previous poll's
raises the counter by one, a poll whose count differs sets it to zero, every poll
becomes the previous count of the next; and when `Settle` declares settled, at poll `m`,
the counter had reached 3 and the three polls before poll `m` were each unchanged from
their predecessor: `c (m-1) = c (m-2) = c (m-3) = c (m-4)` with `c 0 = 0`. -/
theorem settle_counter_three_unchanged (p p' : Peer) (cs : List Nat) (e : SettleExit)
    (hs : p.stopc = false) (h : p.Settle (quiet cs) = some (.ok (p', e))) :
    (∀ v n, n = v.nPeers → (settleUpdate v n).nOkay = v.nOkay + 1) ∧
    (∀ v n, n ≠ v.nPeers → (settleUpdate v n).nOkay = 0) ∧
    (∀ v n, (settleUpdate v n).nPeers = n) ∧
    e.settled = true ∧ e.vars.nOkay ≥ 3 ∧ 4 ≤ e.polls ∧ e.polls ≤ cs.length ∧
    countAt 0 cs (e.polls - 1) = countAt 0 cs (e.polls - 2) ∧
    countAt 0 cs (e.polls - 2) = countAt 0 cs (e.polls - 3) ∧
    countAt 0 cs (e.polls - 3) = countAt 0 cs (e.polls - 4) := by
  refine ⟨fun v n hn => by simp [settleUpdate, hn], fun v n hn => by simp [settleUpdate, hn],
    fun v n => rfl, ?_⟩
  simp only [Peer.Settle, hs] at h
  cases hl : settleLoop false (settleInterval p.cfg)
      { nPeers := 0, nOkay := 0, totalPolls := 0 } (quiet cs) with
  | none => rw [hl] at h; cases h
  | some e' =>
    rw [hl] at h
    obtain ⟨h1, h2, h3⟩ := settleLoop_start_exit _ cs e' hl
    have he : e' = e := by
      cases hc : closeChan p.readyc with
      | error x => rw [hc] at h; cases h
      | ok c =>
        rw [hc] at h
        simp only [Option.some.injEq, Except.ok.injEq, Prod.mk.injEq] at h
        exact h.2
    subst he
    exact ⟨h1, h2, h3⟩

/-- Witness of C9 at the Peer `peerA` and the polls `[4,5,5,5,5,6]`: settled at poll 6,
polls 2 to 5 all showing 5. -/
theorem settle_counter_three_unchanged_witness :
    ∃ p' e, peerA.stopc = false ∧
      peerA.Settle (quiet [4, 5, 5, 5, 5, 6]) = some (.ok (p', e)) ∧
      e.settled = true ∧ e.polls = 6 ∧
      countAt 0 [4, 5, 5, 5, 5, 6] (e.polls - 1) = countAt 0 [4, 5, 5, 5, 5, 6] (e.polls - 4) :=
  ⟨{ peerA with readyc := true },
    { settled := true, polls := 6, vars := { nPeers := 5, nOkay := 3, totalPolls := 5 } },
    rfl, rfl,
    (settle_counter_three_unchanged peerA _ [4, 5, 5, 5, 5, 6] _ rfl rfl).2.2.2.1,
    rfl, rfl⟩

/-- C3, as stated, fails: with `GossipInterval = 0` the timer case of the `select` is
ready at once. On a Peer whose shutdown signal has fired before `Settle` starts, with
the timer case picked at every iteration, `Settle` has polled three times and not
returned; and on five equal counts it has polled five times and left through the
`break` of a settled view. -/
theorem settle_zero_interval_polls_after_shutdown :
    settleInterval { GossipInterval := 0 } = 0 ∧
    Peer.Settle { peerA with cfg := { GossipInterval := 0 }, stopc := true }
        [⟨true, 3, true⟩, ⟨true, 4, true⟩, ⟨true, 5, true⟩] = none ∧
    (Peer.Settle { peerA with cfg := { GossipInterval := 0 }, stopc := true }
        [⟨true, 3, true⟩, ⟨true, 3, true⟩, ⟨true, 3, true⟩, ⟨true, 3, true⟩,
          ⟨true, 3, true⟩]).map (fun r => r.map fun x => (x.2.settled, x.2.polls))
      = some (.ok (true, 5)) := by
  refine ⟨by decide, rfl, rfl⟩

/-- C3 (amended): an iteration that finds the shutdown signal set, and whose `select`
takes the shutdown case, as it must when the poll interval `GossipInterval * 10` is
positive, leaves the loop without polling, whatever was polled before and whatever the
loop variables hold; `Settle`, run on a Peer whose readiness gate is still open, has
then returned with the gate fired (`Ready()` true, `Status()` "ready"), having polled
at most once per earlier iteration, and if it had not returned earlier it returns at
that iteration, unsettled. With an interval that is not positive and the timer case
picked, the iteration goes on as if no shutdown had been signalled. -/
theorem settle_returns_when_stop_case_taken (p : Peer) (hr : p.readyc = false)
    (pre rest : List Obs) (o : Obs) (ho : o.stop = true) :
    ((0 < settleInterval p.cfg ∨ o.timerPicked = false) →
      (∀ v, settleLoop p.stopc (settleInterval p.cfg) v (o :: rest) =
        some { settled := false, polls := v.totalPolls, vars := v }) ∧
      ∃ p' e, p.Settle (pre ++ o :: rest) = some (.ok (p', e)) ∧
        p'.Ready = true ∧ p'.Status = "ready" ∧ e.polls ≤ pre.length ∧
        (p.Settle pre = none →
          e.settled = false ∧ e.polls = pre.length ∧ p'.stopc = true)) ∧
    (settleInterval p.cfg ≤ 0 → o.timerPicked = true →
      ∀ v, settleLoop p.stopc (settleInterval p.cfg) v (o :: rest) =
        if v.nOkay ≥ NumOkayRequired then
          some { settled := true, polls := v.totalPolls + 1, vars := v }
        else settleLoop p.stopc (settleInterval p.cfg) (settleUpdate v o.n) rest) := by
  constructor
  · intro hsel
    have hst := stopTaken_of_stop p.stopc (settleInterval p.cfg) o ho hsel
    refine ⟨fun v => by simp [settleLoop, hst], ?_⟩
    obtain ⟨e, he, hp, hq⟩ :=
      settleLoop_stop p.stopc (settleInterval p.cfg) o hst rest pre
        { nPeers := 0, nOkay := 0, totalPolls := 0 }
    refine ⟨{ p with readyc := true, stopc := p.stopc || !e.settled }, e, ?_, rfl, rfl,
      by simpa using hp, ?_⟩
    · simp only [Peer.Settle, he, closeChan, hr, Bool.false_eq_true, if_false]
    · intro hn
      have hn' : settleLoop p.stopc (settleInterval p.cfg)
          { nPeers := 0, nOkay := 0, totalPolls := 0 } pre = none := by
        simp only [Peer.Settle] at hn
        cases hl : settleLoop p.stopc (settleInterval p.cfg)
            { nPeers := 0, nOkay := 0, totalPolls := 0 } pre with
        | none => rfl
        | some e' =>
          rw [hl] at hn
          simp only [closeChan, hr, Bool.false_eq_true, if_false] at hn
          cases hn
      obtain ⟨h1, h2⟩ := hq hn'
      exact ⟨h1, by simpa using h2, by simp [h1]⟩
  · intro hiv htp v
    have hnot : stopTaken p.stopc (settleInterval p.cfg) o = false := by
      have : ¬ (0 < settleInterval p.cfg) := by omega
      simp [stopTaken, htp, this]
    simp [settleLoop, hnot]

/-- Witness of C3 (amended): `peerA`, whose poll interval is 2 seconds, polls 3 and 4
and then finds the shutdown signal set. -/
theorem settle_returns_when_stop_case_taken_witness :
    peerA.readyc = false ∧ 0 < settleInterval peerA.cfg ∧
    ∃ p' e, peerA.Settle ([⟨false, 3, false⟩, ⟨false, 4, false⟩] ++
          ⟨true, 4, true⟩ :: [⟨false, 4, false⟩]) = some (.ok (p', e)) ∧
      p'.Ready = true ∧ p'.Status = "ready" ∧ e.polls ≤ 2 :=
  ⟨rfl, by decide, by
    obtain ⟨p', e, h1, h2, h3, h4, _⟩ :=
      ((settle_returns_when_stop_case_taken peerA rfl [⟨false, 3, false⟩, ⟨false, 4, false⟩]
        [⟨false, 4, false⟩] ⟨true, 4, true⟩ rfl).1 (Or.inl (by decide))).2
    exact ⟨p', e, h1, h2, h3, h4⟩⟩

/-! ## Leave -/

/-- C2, as stated, fails: the first `Leave` on `peerA` returns, and `Leave` on the Peer
it leaves behind panics on `close(p.stopc)`. -/
theorem leave_twice_panics :
    ∃ p1, Peer.Leave (fun ml _ => (ml, (none : Option String))) peerA 5 = .ok (p1, none) ∧
      p1.stopc = true ∧
      Peer.Leave (fun ml _ => (ml, (none : Option String))) p1 5
        = .error .closeOfClosedChannel :=
  ⟨{ peerA with stopc := true }, rfl, rfl, rfl⟩

/-- C2 (amended): on a Peer whose shutdown signal has not fired, `Leave` fires it and
returns exactly what the gossip session reports for the leave; on a Peer whose shutdown
signal has already fired it panics (close of a closed channel) before the gossip
session is asked to leave. -/
theorem leave_once_then_panics {ε : Type} (mlLeave : Memberlist → Nat → Memberlist × Option ε)
    (p : Peer) (timeout : Nat) :
    (p.stopc = false →
      Peer.Leave mlLeave p timeout =
        .ok ({ p with stopc := true, mlist := (mlLeave p.mlist timeout).1 },
          (mlLeave p.mlist timeout).2)) ∧
    (p.stopc = true → Peer.Leave mlLeave p timeout = .error .closeOfClosedChannel) := by
  constructor
  · intro h; simp [Peer.Leave, closeChan, h]
  · intro h; simp [Peer.Leave, closeChan, h]

/-- Witness of C2 (amended): a leave that the gossip session reports as timed out, on
`peerA`, and the same call on a Peer that has already left. -/
theorem leave_once_then_panics_witness :
    Peer.Leave (fun ml _ => (ml, some "timeout")) peerA 5 =
        .ok ({ peerA with stopc := true }, some "timeout") ∧
    Peer.Leave (fun ml _ => (ml, some "timeout")) { peerA with stopc := true } 5 =
        .error .closeOfClosedChannel :=
  ⟨(leave_once_then_panics (fun ml _ => (ml, some "timeout")) peerA 5).1 rfl,
   (leave_once_then_panics (fun ml _ => (ml, some "timeout")) { peerA with stopc := true } 5).2
      rfl⟩

end Cluster

namespace Cluster

/-! ## resolvePeers -/

/-- While the lookups before number `N` return no address, without error or
cancellation, `retry` keeps looking up and returns at lookup `N`, the first to return
an address. -/
theorem retry_until_nonempty {ε α : Type} (env : Env ε) (peer host : String) (N : Nat)
    (addrs : List String)
    (hzero : ∀ k, k < N → env.lookup k host = .ok [])
    (hok : env.lookup N host = .ok addrs) (hne : addrs ≠ [])
    (hctx : ∀ k, k < N → env.ctxDone k = false) :
    ∀ (fuel : Nat) (s : RetryVars), s.calls ≤ N → N - s.calls < fuel →
      s.lookupErrSpotted = false → s.cancelled = false →
      retry (retryStop env) (retryLookup (α := α) env peer host) fuel s =
        some ({ calls := N + 1, lookupErrSpotted := false, cancelled := false, ips := addrs },
          none) := by
  intro fuel
  induction fuel with
  | zero => intro s _ h; omega
  | succ fuel ih =>
    intro s hle hf he hc
    by_cases hN : s.calls = N
    · have hlen : addrs.length ≠ 0 := by
        intro h0; exact hne (List.length_eq_zero.mp h0)
      simp [retry, retryLookup, hN, hok, hlen, he, hc]
    · have hlt : s.calls < N := by omega
      have hstop : retryStop env
          { calls := s.calls + 1, lookupErrSpotted := s.lookupErrSpotted,
            cancelled := s.cancelled || s.lookupErrSpotted, ips := [] } = false := by
        simp [retryStop, hctx s.calls hlt, he, hc]
      simp only [retry, retryLookup, hzero s.calls hlt, List.length_nil, if_true, hstop,
        Bool.false_eq_true, if_false]
      exact ih _ (by simp only; omega) (by simp only; omega) (by simp [he]) (by simp [he, hc])

/-- A list of seeds each settled by its first lookup resolves, without any retry, to
the blocks of the seeds in seed order, one lookup per seed. -/
theorem resolveLoop_blocks {ε α : Type} (split : String → Except α (String × String))
    (join : String → String → String) (env : Env ε) (fuel : Nat) :
    ∀ (seeds : List String) (k : Nat) (acc : List String),
    (∀ i seed, seeds[i]? = some seed → firstLookupSettles split env (k + i) seed) →
    resolveLoop split join env fuel seeds k acc =
      some { result := .ok (acc ++ seedBlocks split join env k seeds),
             lookups := k + seeds.length } := by
  intro seeds
  induction seeds with
  | nil => intro k acc _; simp [resolveLoop, seedBlocks]
  | cons seed rest ih =>
    intro k acc h
    have hrest : ∀ i s, rest[i]? = some s → firstLookupSettles split env (k + 1 + i) s := by
      intro i s hs
      have := h (i + 1) s (by simpa using hs)
      rwa [show k + (i + 1) = k + 1 + i by omega] at this
    obtain ⟨host, port, hsp, hl⟩ := h 0 seed (by simp)
    simp only [Nat.add_zero] at hl
    rcases hl with ⟨e, he⟩ | ⟨ips, hips, hne⟩
    · simp only [resolveLoop, hsp, he, seedBlocks, seedBlock]
      rw [ih (k + 1) _ hrest]
      simp [Nat.add_comm, Nat.add_left_comm]
    · have hlen : ips.length ≠ 0 := by
        intro h0; exact hne (List.length_eq_zero.mp h0)
      simp only [resolveLoop, hsp, hips, hlen, if_false, seedBlocks, seedBlock]
      rw [ih (k + 1) _ hrest]
      simp [Nat.add_comm, Nat.add_left_comm]

/-- C4: a single seed whose host resolves, without lookup error or cancellation, to
no address on the first `N` lookups and to the non-empty list `addrs` on lookup `N+1`:
given room for `N` runs of the retried lookup, `resolvePeers` returns exactly `addrs`,
each joined with the port of the seed, with no error, after exactly `N+1` lookups. -/
theorem resolvePeers_retries_until_nonempty {ε α : Type}
    (split : String → Except α (String × String)) (join : String → String → String)
    (env : Env ε) (seed host port : String) (N : Nat) (addrs : List String) (fuel : Nat)
    (hsplit : split seed = .ok (host, port))
    (hzero : ∀ k, k < N → env.lookup k host = .ok [])
    (hok : env.lookup N host = .ok addrs) (hne : addrs ≠ [])
    (hctx : ∀ k, k < N → env.ctxDone k = false)
    (hfuel : N ≤ fuel) :
    resolvePeers split join env fuel [seed] =
      some { result := .ok (addrs.map fun ip => join ip port), lookups := N + 1 } := by
  have hlen : addrs.length ≠ 0 := by
    intro h0; exact hne (List.length_eq_zero.mp h0)
  cases N with
  | zero => simp [resolvePeers, resolveLoop, hsplit, hok, hlen]
  | succ n =>
    have h0 : env.lookup 0 host = .ok [] := hzero 0 (by omega)
    have hr := retry_until_nonempty (α := α) env seed host (n + 1) addrs hzero hok hne hctx fuel
      { calls := 0 + 1, lookupErrSpotted := false, cancelled := false, ips := [] }
      (by simp) (by simp only; omega) rfl rfl
    simp only [resolvePeers, resolveLoop, hsplit, h0, List.length_nil, if_true, hr,
      List.nil_append]

/-- C5: for seeds that all split into host and port and whose first lookup each
errs or returns at least one address, `resolvePeers` succeeds with the concatenation,
in seed order, of one block per seed: the seed itself when its lookup erred, else one
joined entry per returned address in the order returned, with the port of the seed. -/
theorem resolvePeers_blocks_in_seed_order {ε α : Type}
    (split : String → Except α (String × String)) (join : String → String → String)
    (env : Env ε) (fuel : Nat) (seeds : List String)
    (h : ∀ i seed, seeds[i]? = some seed → firstLookupSettles split env i seed) :
    resolvePeers split join env fuel seeds =
      some { result := .ok (seedBlocks split join env 0 seeds), lookups := seeds.length } := by
  have := resolveLoop_blocks split join env fuel seeds 0 []
    (by intro i seed hs; simpa using h i seed hs)
  simpa [resolvePeers] using this

end Cluster

namespace Cluster

/-- Witness of C4 with `N = 2`: the name `ruler` resolves on its third lookup. -/
theorem resolvePeers_retries_until_nonempty_witness :
    resolvePeers SplitHostPort JoinHostPort (dnsAfter 2) 2 ["ruler:7946"] =
      some { result := .ok ["10.0.0.2:7946", "10.0.0.4:7946", "10.0.0.5:7946"],
             lookups := 3 } :=
  resolvePeers_retries_until_nonempty SplitHostPort JoinHostPort (dnsAfter 2)
    "ruler:7946" "ruler" "7946" 2 ["10.0.0.2", "10.0.0.4", "10.0.0.5"] 2 rfl
    (by intro k hk; simp [dnsAfter, hk]) rfl (by simp) (fun _ _ => rfl) (le_refl 2)

/-- Witness of C5: a name that resolves at once, between two literal addresses. -/
theorem resolvePeers_blocks_in_seed_order_witness :
    resolvePeers SplitHostPort JoinHostPort (dnsAfter 0) 0
        ["10.0.0.9:7946", "ruler:7946", "[::1]:7946"] =
      some { result := .ok ["10.0.0.9:7946", "10.0.0.2:7946", "10.0.0.4:7946",
                            "10.0.0.5:7946", "[::1]:7946"],
             lookups := 3 } :=
  resolvePeers_blocks_in_seed_order SplitHostPort JoinHostPort (dnsAfter 0) 0
    ["10.0.0.9:7946", "ruler:7946", "[::1]:7946"] (by
      intro i seed hs
      match i, hs with
      | 0, hs =>
        cases hs
        exact ⟨"10.0.0.9", "7946", rfl, Or.inl ⟨"no such host", rfl⟩⟩
      | 1, hs =>
        cases hs
        exact ⟨"ruler", "7946", rfl, Or.inr ⟨_, rfl, by simp⟩⟩
      | 2, hs =>
        cases hs
        exact ⟨"::1", "7946", rfl, Or.inl ⟨"no such host", rfl⟩⟩
      | n + 3, hs => simp at hs)

end Cluster

namespace Cluster

/-! ## refresh -/

/-- The outcomes `joinEach` lists are those of the addresses it was given, in order. -/
theorem joinEach_addrs (mlJoin : Memberlist → String → Memberlist × Bool) :
    ∀ (l : List String) (ml : Memberlist),
    (joinEach mlJoin ml l).2.map (fun a => a.addr) = l := by
  intro l
  induction l with
  | nil => intro ml; rfl
  | cons a l ih => intro ml; simp [joinEach, ih]

/-- Every attempt either succeeded or failed. -/
theorem attempts_ok_or_failed (l : List JoinAttempt) :
    (l.filter fun a => a.ok).length + (l.filter fun a => !a.ok).length = l.length := by
  induction l with
  | nil => rfl
  | cons a l ih =>
    cases hb : a.ok
    · simp [List.filter_cons, hb]; omega
    · simp [List.filter_cons, hb]; omega

/-- The loop of `refresh` makes the joins of `joinEach` on the resolved addresses absent
from the snapshot: it leaves the session they leave, records their outcomes and adds
the successes to one counter and the failures to the other. -/
theorem refreshLoop_joins (mlJoin : Memberlist → String → Memberlist × Bool)
    (members : List Node) :
    ∀ (resolved : List String) (p : Peer) (att : List JoinAttempt),
    refreshLoop mlJoin members resolved p att =
      ({ p with
          mlist := (joinEach mlJoin p.mlist (absentFrom members resolved)).1
          refreshCounter := p.refreshCounter +
            ((joinEach mlJoin p.mlist (absentFrom members resolved)).2.filter
              fun a => a.ok).length
          failedRefreshCounter := p.failedRefreshCounter +
            ((joinEach mlJoin p.mlist (absentFrom members resolved)).2.filter
              fun a => !a.ok).length },
        att ++ (joinEach mlJoin p.mlist (absentFrom members resolved)).2) := by
  intro resolved
  induction resolved with
  | nil => intro p att; simp [refreshLoop, absentFrom, joinEach]
  | cons peer rest ih =>
    intro p att
    by_cases hf : members.any (fun member => member.address == peer) = true
    · have hab : absentFrom members (peer :: rest) = absentFrom members rest := by
        simp only [absentFrom]
        rw [List.filter_cons_of_neg (by simp [hf])]
      simp only [refreshLoop, hf, if_true, hab]
      exact ih p att
    · have hab : absentFrom members (peer :: rest) = peer :: absentFrom members rest := by
        simp only [absentFrom]
        rw [List.filter_cons_of_pos (by simp [hf])]
      by_cases hj : (mlJoin p.mlist peer).2 = true
      · simp only [refreshLoop, hf, hj, if_true, Bool.false_eq_true, if_false, hab, joinEach]
        rw [ih]
        simp [List.filter_cons, Nat.add_assoc, Nat.add_comm 1]
      · have hj' : (mlJoin p.mlist peer).2 = false := by simpa using hj
        simp only [refreshLoop, hf, hj', Bool.false_eq_true, if_false, hab, joinEach]
        rw [ih]
        simp [List.filter_cons, Nat.add_assoc, Nat.add_comm 1]

/-- C10: in one run of `refresh` in which seed resolution succeeds with the addresses
`resolved`, the gossip session is asked for a single-address join of exactly the
resolved addresses that equal no member address of the membership view read in that
run, in resolved order, each on the session the previous join left, a failed join not
ending the run: the session left is the one these joins leave, and every join that
reported no error adds one to the success counter and every other one to the failure
counter, so that together the counters grow by the number of resolved addresses absent
from the view. Nothing else of the Peer changes. -/
theorem refresh_joins_absent_addresses {ε α : Type}
    (split : String → Except α (String × String)) (join : String → String → String)
    (env : Env ε) (fuel : Nat) (mlJoin : Memberlist → String → Memberlist × Bool)
    (knownPeers : List String) (p : Peer) (r : Resolved ε α) (resolved : List String)
    (hres : resolvePeers split join { env with ctxDone := fun _ => false } fuel knownPeers
      = some r)
    (hok : r.result = .ok resolved) :
    ∃ p' att, Peer.refresh split join env fuel mlJoin knownPeers p = some (p', att) ∧
      att = (joinEach mlJoin p.mlist (absentFrom p.mlist.members resolved)).2 ∧
      p'.mlist = (joinEach mlJoin p.mlist (absentFrom p.mlist.members resolved)).1 ∧
      att.map (fun a => a.addr) =
        resolved.filter (fun peer =>
          !p.mlist.members.any (fun member => member.address == peer)) ∧
      p'.refreshCounter = p.refreshCounter + (att.filter fun a => a.ok).length ∧
      p'.failedRefreshCounter =
        p.failedRefreshCounter + (att.filter fun a => !a.ok).length ∧
      (p'.refreshCounter - p.refreshCounter) +
          (p'.failedRefreshCounter - p.failedRefreshCounter) =
        (resolved.filter (fun peer =>
          !p.mlist.members.any (fun member => member.address == peer))).length ∧
      p'.cfg = p.cfg ∧ p'.stopc = p.stopc ∧ p'.readyc = p.readyc := by
  have hl := refreshLoop_joins mlJoin p.mlist.members resolved p []
  simp only [List.nil_append] at hl
  have ha := joinEach_addrs mlJoin (absentFrom p.mlist.members resolved) p.mlist
  have hs := attempts_ok_or_failed
    (joinEach mlJoin p.mlist (absentFrom p.mlist.members resolved)).2
  refine ⟨{ p with
      mlist := (joinEach mlJoin p.mlist (absentFrom p.mlist.members resolved)).1
      refreshCounter := p.refreshCounter +
        ((joinEach mlJoin p.mlist (absentFrom p.mlist.members resolved)).2.filter
          fun a => a.ok).length
      failedRefreshCounter := p.failedRefreshCounter +
        ((joinEach mlJoin p.mlist (absentFrom p.mlist.members resolved)).2.filter
          fun a => !a.ok).length },
    (joinEach mlJoin p.mlist (absentFrom p.mlist.members resolved)).2,
    ?_, rfl, rfl, ?_, rfl, rfl, ?_, rfl, rfl, rfl⟩
  · simp only [Peer.refresh, hres, hok, hl]
  · rw [ha]; rfl
  · simp only
    have hlen : (joinEach mlJoin p.mlist (absentFrom p.mlist.members resolved)).2.length =
        (absentFrom p.mlist.members resolved).length := by
      rw [← List.length_map, ha]
    simp only [absentFrom] at hlen hs ⊢
    omega

/-- Witness of C10: `ruler` resolves to three addresses, one of them already a member;
the join of `10.0.0.4:7946` fails, that of `10.0.0.5:7946` is still made and the
session takes the new member in. -/
theorem refresh_joins_absent_addresses_witness :
    ∃ p' att, Peer.refresh SplitHostPort JoinHostPort (dnsAfter 0) 0
        joinUnlessFour ["ruler:7946"] peerA = some (p', att) ∧
      att = [⟨"10.0.0.4:7946", false⟩, ⟨"10.0.0.5:7946", true⟩] ∧
      p'.mlist = { mlistA with members :=
        mlistA.members ++ [{ name := "10.0.0.5:7946", address := "10.0.0.5:7946" }] } ∧
      att.map (fun a => a.addr) = ["10.0.0.4:7946", "10.0.0.5:7946"] ∧
      p'.refreshCounter = 0 + (att.filter fun a => a.ok).length ∧
      p'.failedRefreshCounter = 0 + (att.filter fun a => !a.ok).length ∧
      (p'.refreshCounter - 0) + (p'.failedRefreshCounter - 0) = 2 ∧
      p'.cfg = peerA.cfg ∧ p'.stopc = false ∧ p'.readyc = false :=
  refresh_joins_absent_addresses SplitHostPort JoinHostPort (dnsAfter 0) 0
    joinUnlessFour ["ruler:7946"] peerA
    { result := .ok ["10.0.0.2:7946", "10.0.0.4:7946", "10.0.0.5:7946"], lookups := 1 }
    ["10.0.0.2:7946", "10.0.0.4:7946", "10.0.0.5:7946"] rfl rfl

end Cluster

namespace Ruler

open Cluster

/-! ## Distributor -/

/-- A Distributor made without a Peer keeps the ring `NewDistributor` gave it: `Refresh`
returns before touching it. -/
theorem reachable_no_peer_ring_empty (d : Distributor) (h : Reachable d) :
    d.peer = none → d.hashRing.members = [] := by
  induction h with
  | new p => intro _; rfl
  | refresh d d' _ hr ih =>
    intro hp
    cases hd : d.peer with
    | none =>
      simp only [Distributor.Refresh, hd, Option.some.injEq] at hr
      subst hr
      exact ih hd
    | some peer =>
      simp only [Distributor.Refresh, hd] at hr
      cases hw : peer.WaitReady with
      | none => rw [hw] at hr; cases hr
      | some u =>
        rw [hw] at hr
        simp only [Option.some.injEq] at hr
        subst hr
        simp only at hp
        cases hp
  | peerMoves d p p' _ _ _ => intro hp; cases hp

/-- C6: `IsAssigned(key)` fails with the no-peer error when no Peer is attached;
with a Peer attached it fails with exactly the error of the ring lookup when that
fails, as it does on the empty ring; and when the ring lookup returns an owner, the
value `AssignedNode(key)` returns, it returns with no error, true exactly when the owner
is the name of the local Peer. With local name `node-a`, members `node-a`, `node-b`,
`node-c` and a key of `node-b`, `IsAssigned` is false and `AssignedNode` is `node-b`. -/
theorem isAssigned_by_ring_owner (locate : List String → String → String)
    (d : Distributor) (key : String) :
    (d.peer = none → d.IsAssigned locate key = .error .peerIsNil) ∧
    (∀ peer err, d.peer = some peer → d.hashRing.Get locate key = .error err →
      d.IsAssigned locate key = .error err) ∧
    (∀ peer, d.peer = some peer → d.MemberNodeList = [] →
      d.IsAssigned locate key = .error .emptyCircle) ∧
    (∀ peer owner, d.peer = some peer → d.AssignedNode locate key = .ok owner →
      ∃ b, d.IsAssigned locate key = .ok b ∧ (b = true ↔ owner = peer.Name)) ∧
    (∀ peer, d.peer = some peer → peer.Name = "node-a" →
      (∀ x, x ∈ d.MemberNodeList ↔ x ∈ ["node-a", "node-b", "node-c"]) →
      locate d.hashRing.members key = "node-b" →
      d.IsAssigned locate key = .ok false ∧ d.AssignedNode locate key = .ok "node-b") := by
  refine ⟨?_, ?_, ?_, ?_, ?_⟩
  · intro h; simp [Distributor.IsAssigned, h]
  · intro peer err hp he; simp [Distributor.IsAssigned, hp, he]
  · intro peer hp hm
    have : d.hashRing.members = [] := hm
    simp [Distributor.IsAssigned, hp, Consistent.Get, this]
  · intro peer owner hp ho
    simp only [Distributor.AssignedNode] at ho
    by_cases hn : owner = peer.Name
    · exact ⟨true, by simp [Distributor.IsAssigned, hp, ho, hn], by simp [hn]⟩
    · exact ⟨false, by simp [Distributor.IsAssigned, hp, ho, hn], by simp [hn]⟩
  · intro peer hp hname hmem hloc
    have hne : d.hashRing.members ≠ [] := by
      intro h0
      have := (hmem "node-a").mpr (by simp)
      simp [Distributor.MemberNodeList, Consistent.Members, h0] at this
    simp [Distributor.IsAssigned, Distributor.AssignedNode, Consistent.Get, hp, hne, hloc,
      hname]

/-- The Distributor of `peerA` once settled and refreshed: ring `node-a`, `node-b`,
`node-c`. -/
theorem isAssigned_by_ring_owner_witness :
    ∃ d, (NewDistributor (some { peerA with readyc := true })).Refresh = some d ∧
      d.IsAssigned locateByLength "k" = .ok false ∧
      d.AssignedNode locateByLength "k" = .ok "node-b" :=
  ⟨{ hashRing := { members := ["node-a", "node-b", "node-c"] },
     peer := some { peerA with readyc := true }, memberSize := 3 }, by decide,
   (isAssigned_by_ring_owner locateByLength
      { hashRing := { members := ["node-a", "node-b", "node-c"] },
        peer := some { peerA with readyc := true }, memberSize := 3 } "k").2.2.2.2
      { peerA with readyc := true } rfl rfl (fun _ => Iff.rfl) rfl⟩

/-- C7, as stated, fails: on the Distributor made with no Peer, `AssignedNode` fails
with the error of the empty ring, not with the no-peer error that `IsAssigned` gives. -/
theorem assignedNode_no_peer_ring_error :
    Reachable (NewDistributor none) ∧
    (NewDistributor none).peer = none ∧
    (NewDistributor none).AssignedNode locateByLength "k" = .error .emptyCircle ∧
    (NewDistributor none).AssignedNode locateByLength "k" ≠ .error .peerIsNil ∧
    (NewDistributor none).IsAssigned locateByLength "k" = .error .peerIsNil := by
  refine ⟨Reachable.new none, rfl, rfl, ?_, rfl⟩
  intro h
  have h2 : (Except.error Error.emptyCircle : Except Error String) = .error .peerIsNil := h
  cases h2

/-- C7 (amended): `AssignedNode(key)` does not look at the Peer. On every Distributor
reachable from `NewDistributor`, for every key, it returns what the ring lookup
returns: the error of the empty ring when the ring has no member, which is always so
when no Peer is attached, and otherwise the owner the ring computes, with no error. -/
theorem assignedNode_is_ring_lookup (locate : List String → String → String)
    (d : Distributor) (key : String) (h : Reachable d) :
    d.AssignedNode locate key = d.hashRing.Get locate key ∧
    (d.peer = none → d.AssignedNode locate key = .error .emptyCircle) ∧
    (d.MemberNodeList = [] → d.AssignedNode locate key = .error .emptyCircle) ∧
    (d.MemberNodeList ≠ [] →
      d.AssignedNode locate key = .ok (locate d.MemberNodeList key)) := by
  refine ⟨rfl, ?_, ?_, ?_⟩
  · intro hp
    have := reachable_no_peer_ring_empty d h hp
    simp [Distributor.AssignedNode, Consistent.Get, this]
  · intro hm
    have : d.hashRing.members = [] := hm
    simp [Distributor.AssignedNode, Consistent.Get, this]
  · intro hm
    have : d.hashRing.members ≠ [] := hm
    simp [Distributor.AssignedNode, Consistent.Get, this, Distributor.MemberNodeList,
      Consistent.Members]

/-- Witness of C7 (amended) on the Distributor made with no Peer. -/
theorem assignedNode_is_ring_lookup_witness :
    Reachable (NewDistributor none) ∧
    (NewDistributor none).AssignedNode locateByLength "k" = .error .emptyCircle :=
  ⟨Reachable.new none,
   (assignedNode_is_ring_lookup locateByLength (NewDistributor none) "k"
      (Reachable.new none)).2.1 rfl⟩

/-- C8: on a Distributor whose attached Peer is ready, whatever the ring held before,
`Refresh()` returns and the names `MemberNodeList()` then gives are exactly the names of
the members `Peers()` gave: none kept from before, none missing; with no member the
ring is left empty. The gauge shows the number of ring members. -/
theorem refresh_ring_is_peer_names (d : Distributor) (peer : Peer)
    (hp : d.peer = some peer) (hready : peer.Ready = true) :
    ∃ d', d.Refresh = some d' ∧
      (∀ name, name ∈ d'.MemberNodeList ↔ name ∈ peer.Peers.map (fun nd => nd.name)) ∧
      (peer.Peers = [] → d'.MemberNodeList = []) ∧
      d'.memberSize = d'.MemberNodeList.length ∧ d'.peer = some peer := by
  have hr : peer.readyc = true := by
    simp only [Peer.Ready] at hready
    by_contra hc
    simp [hc] at hready
  refine ⟨{ d with hashRing := d.hashRing.Set (peer.Peers.map fun nd => nd.name),
                   memberSize := (d.hashRing.Set (peer.Peers.map fun nd => nd.name)).Members.length },
    ?_, ?_, ?_, rfl, hp⟩
  · simp [Distributor.Refresh, hp, Peer.WaitReady, hr]
  · intro name
    simp [Distributor.MemberNodeList, Consistent.Members, Consistent.Set]
  · intro he
    simp [Distributor.MemberNodeList, Consistent.Members, Consistent.Set, he]

/-- Witness of C8: a ring holding the stale name `node-z` is refreshed from `peerA`. -/
theorem refresh_ring_is_peer_names_witness :
    ∃ d', Distributor.Refresh
        { hashRing := { members := ["node-z", "node-a"] },
          peer := some { peerA with readyc := true }, memberSize := 2 } = some d' ∧
      (∀ name, name ∈ d'.MemberNodeList ↔ name ∈ ["node-a", "node-b", "node-c"]) := by
  obtain ⟨d', h1, h2, _⟩ := refresh_ring_is_peer_names
    { hashRing := { members := ["node-z", "node-a"] },
      peer := some { peerA with readyc := true }, memberSize := 2 }
    { peerA with readyc := true } rfl rfl
  exact ⟨d', h1, h2⟩

end Ruler
